import Mathlib

/-!
Verification development for the photo_sorter mapping/copy pipeline.

Shallow embedding of the core components:
* `events.py`   — calendar event detection (`_easter_date`, `detect_event`)
* `grouper.py`  — group-key construction (`_sanitize`, `make_group_name`, rule lookups)
* `copier.py`   — conflict-safe copying (`copy_file`, `_hash_file` effects)
* `services/copy_runner.py` — the copy job loop (`_run`) over a job record
* `services/mapping.py`     — mapping construction (`build_mapping` scan loop)

Python machine-level details are modelled explicitly: `datetime.date` values
become `Date` records compared/shifted through their proleptic Gregorian
ordinal (as CPython's `date.toordinal` does), the destination directory
becomes an explicit association list of file names to contents, and fallible
I/O (hashing, `shutil.copy2`) is modelled with explicit success flags /
`Except` results.
-/

namespace PhotoSorter

/-! ### Dates (model of `datetime.date`) -/

structure Date where
  year : Nat
  month : Nat
  day : Nat
deriving DecidableEq, Repr

def isLeap (y : Nat) : Bool :=
  y % 4 = 0 && (y % 100 != 0 || y % 400 = 0)

def daysInMonth (y m : Nat) : Nat :=
  if m = 2 then (if isLeap y then 29 else 28)
  else if m = 4 ∨ m = 6 ∨ m = 9 ∨ m = 11 then 30
  else 31

def daysBeforeMonth (y m : Nat) : Nat :=
  (List.range (m - 1)).foldl (fun acc i => acc + daysInMonth y (i + 1)) 0

/-- Proleptic Gregorian ordinal, day 1 = 0001-01-01 (CPython `date.toordinal`). -/
def toOrdinal (d : Date) : Nat :=
  365 * (d.year - 1) + (d.year - 1) / 4 - (d.year - 1) / 100 + (d.year - 1) / 400
    + daysBeforeMonth d.year d.month + d.day

/-- CPython `date.weekday`: Monday = 0. Ordinal 1 (0001-01-01) is a Monday. -/
def weekday (d : Date) : Nat :=
  (toOrdinal d + 6) % 7

/-! ### `events.py` -/

/-- `_easter_date`: anonymous Gregorian algorithm, verbatim from the source.
All intermediate quantities are non-negative for `year ≥ 1`, so `Nat`
arithmetic agrees with Python's ints. -/
def easterDate (year : Nat) : Date :=
  let a := year % 19
  let b := year / 100
  let c := year % 100
  let d := b / 4
  let e := b % 4
  let f := (b + 8) / 25
  let g := (b - f + 1) / 3
  let h := (19 * a + b - d - g + 15) % 30
  let i := c / 4
  let k := c % 4
  let l := (32 + 2 * e + 2 * i - h - k) % 7
  let m := (a + 11 * h + 22 * l) / 451
  let month := (h + l - 7 * m + 114) / 31
  let day := ((h + l - 7 * m + 114) % 31) + 1
  ⟨year, month, day⟩

/-- `CUSTOM_DATES` inside `detect_event` (checked first, year-agnostic). -/
def customDates : List ((Nat × Nat) × String) :=
  [((12, 1), "EnzoBirthday"), ((1, 16), "AxelBirthday"),
   ((5, 21), "AmhaoinBirthday"), ((3, 15), "PatrickBirthday")]

/-- `detect_event`.  Date comparisons and `timedelta` shifts are carried out
on ordinals, which is how CPython's `date` ordering and arithmetic behave.
The Thanksgiving branch folds Python's inner `if dt == fourth_thursday`
into the guard; when the guard fails Python falls through to the December
checks, which cannot match a November date, so the chain below is
equivalent. -/
def detectEvent (dt : Date) : Option String :=
  match customDates.lookup (dt.month, dt.day) with
  | some label => some label
  | none =>
    if dt.month = 1 ∧ (dt.day = 1 ∨ dt.day = 2) then some "NewYear"
    else if dt.month = 2 ∧ dt.day = 14 then some "Valentines"
    else if dt.month = 3 ∧ dt.day = 17 then some "StPatricks"
    else if toOrdinal (easterDate dt.year) - 2 ≤ toOrdinal dt ∧
        toOrdinal dt ≤ toOrdinal (easterDate dt.year) + 1 then some "Easter"
    else if dt.month = 10 ∧ 25 ≤ dt.day ∧ dt.day ≤ 31 then some "Halloween"
    else if dt.month = 11 ∧ weekday dt = 3 ∧
        toOrdinal dt = toOrdinal ⟨dt.year, 11, 1⟩ + (10 - weekday ⟨dt.year, 11, 1⟩) % 7 + 21
      then some "Thanksgiving"
    else if dt.month = 12 ∧ (dt.day = 24 ∨ dt.day = 25 ∨ dt.day = 26) then some "Christmas"
    else if dt.month = 12 ∧ dt.day = 31 then some "NewYearsEve"
    else none

/-! ### `grouper.py` -/

/-- Character class of `INVALID_CHARS = re.compile(r'[<>:\"/|?*]')`.
Inside the raw string the backslash escapes the quote in the regex, so the
class contains exactly these eight characters; the backslash itself is not
matched. -/
def invalidChar (c : Char) : Bool :=
  c = '<' || c = '>' || c = ':' || c = '"' || c = '/' || c = '|' || c = '?' || c = '*'

/-- The whitespace matched by the regex `\s` (ASCII range). -/
def isPySpace (c : Char) : Bool :=
  c = ' ' || c = '\t' || c = '\n' || c = '\x0b' || c = '\x0c' || c = '\r'

/-- `re.sub(r"\s+", " ", s)`: replace each maximal whitespace run by one
space (structural right fold: a whitespace character becomes `' '` and
merges with a space already produced for the rest of the run). -/
def pushSpace : List Char → List Char
  | [] => [' ']
  | d :: t => if d = ' ' then ' ' :: t else ' ' :: d :: t

def collapseWs : List Char → List Char
  | [] => []
  | c :: rest =>
    if isPySpace c then pushSpace (collapseWs rest)
    else c :: collapseWs rest

/-- `str.strip()` on the (ASCII) whitespace present after the collapse. -/
def pyStrip (l : List Char) : List Char :=
  ((l.dropWhile isPySpace).reverse.dropWhile isPySpace).reverse

/-- `_sanitize`. -/
def sanitize (name : String) : String :=
  if name = "" then "Unknown"
  else ⟨pyStrip (collapseWs (name.data.map (fun c => if invalidChar c then '_' else c)))⟩

/-- One entry of the loaded `custom_events` list (`end` is a Lean keyword,
hence `endDate`; `location` is `None` or a lowered non-empty string after
`_load_rules`). -/
structure CustomEvent where
  name : String
  start : Date
  endDate : Date
  location : Option String
deriving DecidableEq, Repr

/-- The loaded `GroupingRules` dictionary (dictionaries become association
lists, first binding wins as in a Python dict with unique keys). -/
structure GroupingRules where
  locationAliases : List (String × String)
  eventOverrides : List (String × String)
  customEvents : List CustomEvent
deriving DecidableEq, Repr

/-- `_default_rules`. -/
def defaultRules : GroupingRules := ⟨[], [], []⟩

/-- Python `str.lower` on the ASCII keys used by the rule lookups. -/
def asciiLower (s : String) : String := ⟨s.data.map Char.toLower⟩

/-- `_apply_location_alias`: `aliases.get(place.lower(), place)`. -/
def applyLocationAlias (rules : GroupingRules) (place : String) : String :=
  match rules.locationAliases.lookup (asciiLower place) with
  | some v => v
  | none => place

/-- Python truthiness of an optional string. -/
def truthyOpt : Option String → Bool
  | none => false
  | some s => !(s == "")

/-- `_apply_event_override`: a falsy label passes through; a found override
replaces the label unless the override itself is falsy (`overridden or label`). -/
def applyEventOverride (rules : GroupingRules) (label : Option String) : Option String :=
  if truthyOpt label then
    match label with
    | some l =>
      (match rules.eventOverrides.lookup (asciiLower l) with
       | some o => if o == "" then some l else some o
       | none => some l)
    | none => none
  else label

/-- `datetime.date` ordering (lexicographic on year, month, day). -/
def dateLe (a b : Date) : Bool :=
  a.year < b.year ||
    (a.year = b.year && (a.month < b.month || (a.month = b.month && a.day ≤ b.day)))

/-- The scan of `_match_custom_event`: first in-range rule whose optional
location filter matches wins; a rule with a filter that does not match the
place key is skipped (`continue`). -/
def findCustom : List CustomEvent → Date → Option String → Option String
  | [], _, _ => none
  | e :: rest, d, placeKey =>
    if dateLe e.start d && dateLe d e.endDate then
      match e.location with
      | some loc => if placeKey == some loc then some e.name else findCustom rest d placeKey
      | none => some e.name
    else findCustom rest d placeKey

/-- `_match_custom_event`: `place_key = place.lower() if place else None`. -/
def matchCustomEvent (rules : GroupingRules) (dt : Option Date) (place : Option String) :
    Option String :=
  match dt with
  | none => none
  | some d =>
    let placeKey : Option String :=
      match place with
      | some p => if p == "" then none else some (asciiLower p)
      | none => none
    findCustom rules.customEvents d placeKey

/-- `strftime("%b")` month abbreviations (C locale); months produced by a
real timestamp are 1–12, the default is never reached there. -/
def monthAbbrev (m : Nat) : String :=
  ["Jan", "Feb", "Mar", "Apr", "May", "Jun",
   "Jul", "Aug", "Sep", "Oct", "Nov", "Dec"].getD (m - 1) "Mon"

/-- `strftime("%Y")` (zero-padded to four digits, as glibc does). -/
def formatYear (y : Nat) : String :=
  if y < 10 then "000" ++ toString y
  else if y < 100 then "00" ++ toString y
  else if y < 1000 then "0" ++ toString y
  else toString y

/-- The metadata dictionary fields read by `make_group_name`.  GPS
coordinates are opaque to the grouper (only forwarded to the geocoder), so
they are modelled as an abstract pair. -/
structure Meta where
  datetime : Option Date
  place : Option String
  gps : Option (Int × Int)
deriving DecidableEq, Repr

/-- `{}` — the empty metadata dictionary (`dict.get` yields `None`). -/
def emptyMeta : Meta := ⟨none, none, none⟩

/-- `make_group_name`.  The reverse geocoder is the capability `geo`; a
geocoding exception (caught in the source) is `none`.  `detect_event` is
total here, so its `try/except` never fires. -/
def makeGroupName (geo : Int × Int → Option String) (rules : GroupingRules) (meta : Meta) :
    String :=
  let yearMon : String :=
    match meta.datetime with
    | some d => formatYear d.year ++ monthAbbrev d.month
    | none => "unknown" ++ "Mon"
  let place0 : Option String :=
    if truthyOpt meta.place then meta.place
    else
      match meta.gps with
      | some g => geo g
      | none => meta.place
  let place1 : String :=
    match place0 with
    | some p => if p == "" then "NoLocation" else p
    | none => "NoLocation"
  let place2 : String := sanitize place1
  let placeToken0 : String := ⟨pyStrip (place2.data.takeWhile (fun c => !(c == ',')))⟩
  let placeToken : String := applyLocationAlias rules placeToken0
  let compact : String := ⟨placeToken.data.filter (fun c => !(c == ' '))⟩
  let e0 : Option String :=
    match meta.datetime with
    | some d =>
      let e1 := matchCustomEvent rules (some d) (some placeToken)
      if truthyOpt e1 then e1 else detectEvent d
    | none => none
  let eventLabel : Option String := applyEventOverride rules e0
  match eventLabel with
  | some l =>
    if l == "" then yearMon ++ "_" ++ compact
    else yearMon ++ "_" ++ compact ++ "_" ++ l
  | none => yearMon ++ "_" ++ compact

/-! ### `copier.py` -/

/-- A file at the destination: its byte content and whether the reads done
by `_hash_file` on it succeed (its `stat` size is the content length). -/
structure FileData where
  content : List Nat
  readable : Bool
deriving DecidableEq, Repr

/-- The source file handed to `copy_file` (`Path.stem` / `Path.suffix`;
`name = stem + suffix`). -/
structure SrcFile where
  stem : String
  suffix : String
  content : List Nat
  readable : Bool
deriving DecidableEq, Repr

def SrcFile.name (s : SrcFile) : String := s.stem ++ s.suffix

instance {ε α : Type} [DecidableEq ε] [DecidableEq α] : DecidableEq (Except ε α) :=
  fun a b =>
    match a, b with
    | .ok x, .ok y =>
      if h : x = y then isTrue (h ▸ rfl) else isFalse (fun hc => h (Except.ok.inj hc))
    | .error x, .error y =>
      if h : x = y then isTrue (h ▸ rfl) else isFalse (fun hc => h (Except.error.inj hc))
    | .ok _, .error _ => isFalse (fun hc => Except.noConfusion hc)
    | .error _, .ok _ => isFalse (fun hc => Except.noConfusion hc)

/-- The destination directory: whether it exists yet, and the files it
holds (name ↦ data, association list with distinct names). -/
structure DestDir where
  dirExists : Bool
  files : List (String × FileData)
deriving DecidableEq, Repr

/-- The `while dest.exists()` search: first candidate `"{stem}_{i}{suffix}"`
for i = 1, 2, … whose name is not taken.  The source loop terminates
because only finitely many names exist; the recursion here is fuelled with
`files.length + 1` candidates, enough to reach a free one. -/
def findFreeName (files : List (String × FileData)) (stem suf : String) :
    Nat → Nat → String
  | i, 0 => stem ++ "_" ++ toString i ++ suf
  | i, fuel + 1 =>
    let cand := stem ++ "_" ++ toString i ++ suf
    if (files.lookup cand).isSome then findFreeName files stem suf (i + 1) fuel
    else cand

/-- `copy_file` (with `return_status=True`).  Effects are explicit:
`mkdir(parents=True, exist_ok=True)` marks the directory existing before
anything else; a failing `stat`/`_hash_file` inside the `try` block is
swallowed (`except Exception: pass`) so control falls through to the rename
search; a `shutil.copy2` failure (modelled by `copyOk = false`) escapes as
the raw exception (`Except.error` carrying the source name).  `md5`
abstracts the digest function; the final status mirrors the source's
`dest.name != src.name` test. -/
def copyFile (md5 : List Nat → List Nat) (src : SrcFile) (fs : DestDir)
    (dryRun : Bool) (copyOk : Bool) : Except String (DestDir × String × String) :=
  let name := src.name
  match fs.files.lookup name with
  | some d =>
    if d.content.length = src.content.length ∧ src.readable = true ∧ d.readable = true ∧
        md5 src.content = md5 d.content then
      .ok (⟨true, fs.files⟩, name, "skipped_identical")
    else
      let dest := findFreeName fs.files src.stem src.suffix 1 (fs.files.length + 1)
      if dryRun then .ok (⟨true, fs.files⟩, dest, "dryrun")
      else if copyOk then
        .ok (⟨true, fs.files ++ [(dest, ⟨src.content, true⟩)]⟩, dest,
          if dest ≠ name then "renamed" else "copied")
      else .error name
  | none =>
    if dryRun then .ok (⟨true, fs.files⟩, name, "dryrun")
    else if copyOk then
      .ok (⟨true, fs.files ++ [(name, ⟨src.content, true⟩)]⟩, name,
        if name ≠ name then "renamed" else "copied")
    else .error name

/-! ### `services/copy_runner.py` -/

/-- The job-record fields `_run` reads or writes (timestamps and
destination-path bookkeeping strings are omitted — no claim mentions them;
`create` seeds only `state` and `errors`, so the counters start at 0). -/
structure JobRec where
  state : String
  total : Nat
  processed : Nat
  copied : Nat
  failed : Nat
  duplicates : Nat
  errors : List String
  currentFile : Option String
  currentGroup : Option String
deriving DecidableEq, Repr

/-- `copy_jobs.create(job_id, {"state": "pending", "errors": []})`. -/
def pendingRec : JobRec := ⟨"pending", 0, 0, 0, 0, 0, [], none, none⟩

def isErr (r : Except String String) : Bool :=
  match r with
  | .error _ => true
  | .ok _ => false

def isDup (r : Except String String) : Bool :=
  match r with
  | .ok st => st == "skipped_identical"
  | .error _ => false

/-- One iteration of `_run`'s file loop: the job snapshots published for
that file, in order, together with the last of them (the record the next
iteration continues from).  `cr group path` is the outcome of `copy_file`
for the file; `dupErr path` is the error message if the best-effort extra
copy in `_copy_duplicates` fails (it appends to `errors`, no counter). -/
def fileSteps (cr : String → String → Except String String)
    (dupErr : String → Option String) (group path : String) (j : JobRec) :
    List JobRec × JobRec :=
  let j1 : JobRec :=
    { j with processed := j.processed + 1, currentFile := some path,
             currentGroup := some group }
  match cr group path with
  | .error e =>
    let j2 : JobRec :=
      { j1 with errors := j1.errors ++ ["Copy failed for " ++ path ++ ": " ++ e] }
    let j3 : JobRec := { j2 with failed := j2.failed + 1 }
    ([j1, j2, j3], j3)
  | .ok st =>
    if st == "skipped_identical" then
      let j2 : JobRec := { j1 with duplicates := j1.duplicates + 1 }
      match dupErr path with
      | some m =>
        let j3 : JobRec := { j2 with errors := j2.errors ++ ["Duplicate copy failed: " ++ m] }
        ([j1, j2, j3], j3)
      | none => ([j1, j2], j2)
    else
      let j2 : JobRec := { j1 with copied := j1.copied + 1 }
      ([j1, j2], j2)

/-- `_run`'s loop over the (group, file) pairs, threading the job record
and collecting every published snapshot. -/
def runPairs (cr : String → String → Except String String)
    (dupErr : String → Option String) : List (String × String) → JobRec → List JobRec
  | [], _ => []
  | (g, p) :: rest, j =>
    (fileSteps cr dupErr g p j).1 ++ runPairs cr dupErr rest (fileSteps cr dupErr g p j).2

/-- The job record as it stands after `_run`'s loop (the last published
snapshot, or the starting record when there was nothing to copy). -/
def runPairsFinal (cr : String → String → Except String String)
    (dupErr : String → Option String) : List (String × String) → JobRec → JobRec
  | [], j => j
  | (g, p) :: rest, j => runPairsFinal cr dupErr rest (fileSteps cr dupErr g p j).2

/-- `groups_to_run` (an empty group name is falsy in Python, hence runs all
groups) paired with each group's files `mapping.get(group, [])`, flattened
in iteration order. -/
def jobPairs (mapping : List (String × List String)) (gn : Option String) :
    List (String × String) :=
  let groupsToRun :=
    match gn with
    | some g => if g == "" then mapping.map Prod.fst else [g]
    | none => mapping.map Prod.fst
  groupsToRun.flatMap (fun g => ((mapping.lookup g).getD []).map (fun p => (g, p)))

/-- The "running" update of `_run`: state set, total set, counters zeroed
(the other fields keep what `create` seeded). -/
def runningRec (total : Nat) : JobRec :=
  { pendingRec with state := "running", total := total }

/-- The final update of `_run`: state `done`, current file/group cleared. -/
def doneRec (j : JobRec) : JobRec :=
  { j with state := "done", currentFile := none, currentGroup := none }

/-- The snapshot trace of `_run` once `build_mapping` has succeeded with
the given mapping and flat file list: the seeded pending record, the
"running" update, the per-file snapshots, and the final "done" update. -/
def runTrace (cr : String → String → Except String String)
    (dupErr : String → Option String) (mapping : List (String × List String))
    (files : List String) (gn : Option String) : List JobRec :=
  (pendingRec :: runningRec files.length ::
      runPairs cr dupErr (jobPairs mapping gn) (runningRec files.length)) ++
    [doneRec (runPairsFinal cr dupErr (jobPairs mapping gn) (runningRec files.length))]

/-! ### `services/mapping.py` -/

/-- `build_mapping`'s per-file group assignment: `extract_metadata` failure
degrades to `{}` (and grouping is still attempted on it), `make_group_name`
failure degrades to `"NoLocation"` — both `try/except` in the source.  The
two capabilities are parameters; `grp` abstracts `make_group_name` (whose
embedding above is total, but the builder guards it anyway). -/
def assignGroup (extract : String → Except String Meta)
    (grp : Meta → Except String String) (p : String) : String :=
  let meta :=
    match extract p with
    | .ok m => m
    | .error _ => emptyMeta
  match grp meta with
  | .ok g => g
  | .error _ => "NoLocation"

/-- `groups.setdefault(group, []).append(path)` on an insertion-ordered
dictionary. -/
def setdefaultAppend (acc : List (String × List String)) (g p : String) :
    List (String × List String) :=
  match acc with
  | [] => [(g, [p])]
  | (k, l) :: t => if k = g then (k, l ++ [p]) :: t else (k, l) :: setdefaultAppend t g p

/-- The scan loop of `build_mapping` on a cache miss (the flat `files` list
it returns is the scan list itself, since every scanned path is appended to
it unconditionally). -/
def buildGroups (assign : String → String) :
    List String → List (String × List String) → List (String × List String)
  | [], acc => acc
  | p :: rest, acc => buildGroups assign rest (setdefaultAppend acc (assign p) p)

/-- Fixture for the job-lifecycle claims: a ten-file single-group mapping
whose third file fails to copy. -/
def exMapping : List (String × List String) :=
  [("G", ["f1", "f2", "f3", "f4", "f5", "f6", "f7", "f8", "f9", "f10"])]

def exFiles : List String :=
  ["f1", "f2", "f3", "f4", "f5", "f6", "f7", "f8", "f9", "f10"]

def exCr : String → String → Except String String :=
  fun _ p => if p == "f3" then .error "io error" else .ok "copied"

end PhotoSorter

/-- C8: every date from Good Friday through Easter Monday inclusive (Easter
Sunday per the embedded Gregorian algorithm for that year) maps to "Easter"
provided no earlier precedence rule (custom date, New Year, Valentines,
St Patricks) matched; concretely for 2025 Easter Sunday is April 20 and
April 18–21 return "Easter" while April 17 and April 22 do not. -/
theorem detectEvent_easter_window :
    (∀ dt : PhotoSorter.Date,
        PhotoSorter.customDates.lookup (dt.month, dt.day) = none →
        ¬(dt.month = 1 ∧ (dt.day = 1 ∨ dt.day = 2)) →
        ¬(dt.month = 2 ∧ dt.day = 14) →
        ¬(dt.month = 3 ∧ dt.day = 17) →
        PhotoSorter.toOrdinal (PhotoSorter.easterDate dt.year) - 2 ≤ PhotoSorter.toOrdinal dt →
        PhotoSorter.toOrdinal dt ≤ PhotoSorter.toOrdinal (PhotoSorter.easterDate dt.year) + 1 →
        PhotoSorter.detectEvent dt = some "Easter") ∧
    PhotoSorter.easterDate 2025 = ⟨2025, 4, 20⟩ ∧
    PhotoSorter.detectEvent ⟨2025, 4, 17⟩ = none ∧
    PhotoSorter.detectEvent ⟨2025, 4, 18⟩ = some "Easter" ∧
    PhotoSorter.detectEvent ⟨2025, 4, 19⟩ = some "Easter" ∧
    PhotoSorter.detectEvent ⟨2025, 4, 20⟩ = some "Easter" ∧
    PhotoSorter.detectEvent ⟨2025, 4, 21⟩ = some "Easter" ∧
    PhotoSorter.detectEvent ⟨2025, 4, 22⟩ = none := by
  refine ⟨?_, by decide, by decide, by decide, by decide, by decide, by decide, by decide⟩
  intro dt h0 h1 h2 h3 h4 h5
  unfold PhotoSorter.detectEvent
  rw [h0]
  simp only [if_neg h1, if_neg h2, if_neg h3, if_pos (And.intro h4 h5)]

namespace PhotoSorter

theorem mem_collapseWs (l : List Char) (c : Char) (h : c ∈ collapseWs l) :
    c = ' ' ∨ c ∈ l := by
  induction l with
  | nil => simp [collapseWs] at h
  | cons a rest ih =>
    rw [collapseWs] at h
    by_cases ha : isPySpace a = true
    · rw [if_pos ha] at h
      rcases hm : collapseWs rest with _ | ⟨d, t⟩
      · rw [hm, pushSpace] at h
        simp at h
        exact Or.inl h
      · rw [hm, pushSpace] at h
        by_cases hd : d = ' '
        · rw [if_pos hd] at h
          rcases List.mem_cons.mp h with h1 | h2
          · exact Or.inl h1
          · have hc : c ∈ collapseWs rest := by
              rw [hm]; exact List.mem_cons_of_mem _ h2
            rcases ih hc with h3 | h4
            · exact Or.inl h3
            · exact Or.inr (List.mem_cons_of_mem _ h4)
        · rw [if_neg hd] at h
          rcases List.mem_cons.mp h with h1 | h2
          · exact Or.inl h1
          · have hc : c ∈ collapseWs rest := by rw [hm]; exact h2
            rcases ih hc with h3 | h4
            · exact Or.inl h3
            · exact Or.inr (List.mem_cons_of_mem _ h4)
    · rw [if_neg ha] at h
      rcases List.mem_cons.mp h with h1 | h2
      · subst h1
        exact Or.inr (List.mem_cons_self _ _)
      · rcases ih h2 with h3 | h4
        · exact Or.inl h3
        · exact Or.inr (List.mem_cons_of_mem _ h4)

theorem chain'_collapseWs (l : List Char) :
    List.Chain' (fun a b => ¬(a = ' ' ∧ b = ' ')) (collapseWs l) := by
  induction l with
  | nil => simp [collapseWs]
  | cons a rest ih =>
    rw [collapseWs]
    by_cases ha : isPySpace a = true
    · rw [if_pos ha]
      rcases hm : collapseWs rest with _ | ⟨d, t⟩
      · rw [pushSpace]
        simp
      · rw [pushSpace]
        rw [hm] at ih
        by_cases hd : d = ' '
        · rw [if_pos hd]
          subst hd
          exact ih
        · rw [if_neg hd]
          refine List.chain'_cons'.mpr ⟨?_, ih⟩
          intro y hy
          rw [List.head?_cons, Option.mem_def, Option.some.injEq] at hy
          rintro ⟨-, h2⟩
          exact hd (by rw [hy, h2])
    · rw [if_neg ha]
      refine List.chain'_cons'.mpr ⟨?_, ih⟩
      rintro y - ⟨h1, -⟩
      subst h1
      simp [isPySpace] at ha

theorem chain'_dropWhile {α : Type} {R : α → α → Prop} (p : α → Bool) (l : List α)
    (h : List.Chain' R l) : List.Chain' R (l.dropWhile p) := by
  induction l with
  | nil => exact h
  | cons a t ih =>
    rw [List.dropWhile_cons]
    by_cases hp : p a = true
    · rw [if_pos hp]
      exact ih h.tail
    · rw [if_neg hp]
      exact h

theorem chain'_pyStrip {R : Char → Char → Prop} (hsymm : ∀ a b, R a b → R b a)
    (l : List Char) (h : List.Chain' R l) : List.Chain' R (pyStrip l) := by
  have h1 : List.Chain' R (l.dropWhile isPySpace) := chain'_dropWhile _ _ h
  have h2 : List.Chain' R (l.dropWhile isPySpace).reverse :=
    List.chain'_reverse.mpr (h1.imp (fun a b hab => hsymm a b hab))
  have h3 : List.Chain' R ((l.dropWhile isPySpace).reverse.dropWhile isPySpace) :=
    chain'_dropWhile _ _ h2
  exact List.chain'_reverse.mpr (h3.imp (fun a b hab => hsymm a b hab))

theorem mem_pyStrip (l : List Char) (c : Char) (h : c ∈ pyStrip l) : c ∈ l := by
  unfold pyStrip at h
  rw [List.mem_reverse] at h
  have h1 := (List.dropWhile_sublist isPySpace).mem h
  rw [List.mem_reverse] at h1
  exact (List.dropWhile_sublist isPySpace).mem h1

end PhotoSorter

namespace PhotoSorter

theorem collapseWs_replicate_space (n : Nat) (hn : 1 ≤ n) :
    collapseWs (List.replicate n ' ') = [' '] := by
  induction n with
  | zero => exact absurd hn (by omega)
  | succ m ih =>
    rw [List.replicate_succ, collapseWs, if_pos (by decide : isPySpace ' ' = true)]
    cases Nat.eq_zero_or_pos m with
    | inl h0 => subst h0; rfl
    | inr hpos => rw [ih hpos, pushSpace, if_pos rfl]

theorem sanitize_replicate_space (n : Nat) (hn : 1 ≤ n) :
    sanitize ⟨List.replicate n ' '⟩ = "" := by
  have hne : (⟨List.replicate n ' '⟩ : String) ≠ "" := by
    intro h
    have hd : List.replicate n ' ' = ([] : List Char) := congrArg String.data h
    rw [List.replicate_eq_nil_iff] at hd
    omega
  unfold sanitize
  rw [if_neg hne]
  have hmap : (String.data ⟨List.replicate n ' '⟩).map
      (fun c => if invalidChar c then '_' else c) = List.replicate n ' ' := by
    show (List.replicate n ' ').map _ = _
    rw [List.map_replicate, if_neg (by decide : ¬invalidChar ' ' = true)]
  rw [hmap, collapseWs_replicate_space n hn]
  decide

end PhotoSorter

/-- C1: two metadata inputs carrying the same capture timestamp and the same
pre-resolved (non-empty) place label yield the identical group key under the
same loaded rules, regardless of their GPS fields and of what the geocoder
capability would answer. -/
theorem makeGroupName_deterministic (geo1 geo2 : Int × Int → Option String)
    (rules : PhotoSorter.GroupingRules) (dt : Option PhotoSorter.Date) (p : String)
    (gps1 gps2 : Option (Int × Int)) (hp : p ≠ "") :
    PhotoSorter.makeGroupName geo1 rules ⟨dt, some p, gps1⟩ =
      PhotoSorter.makeGroupName geo2 rules ⟨dt, some p, gps2⟩ := by
  have ht : PhotoSorter.truthyOpt (some p) = true := by
    simp [PhotoSorter.truthyOpt, hp]
  simp only [PhotoSorter.makeGroupName, ht, if_true]

/-- Witness for C1 at a concrete input (different GPS and geocoders). -/
theorem makeGroupName_deterministic_witness :
    ("Dublin" : String) ≠ "" ∧
      PhotoSorter.makeGroupName (fun _ => some "Cork") PhotoSorter.defaultRules
          ⟨some ⟨2025, 12, 1⟩, some "Dublin", some (1, 2)⟩ =
        PhotoSorter.makeGroupName (fun _ => none) PhotoSorter.defaultRules
          ⟨some ⟨2025, 12, 1⟩, some "Dublin", none⟩ :=
  ⟨by decide, makeGroupName_deterministic _ _ PhotoSorter.defaultRules _ "Dublin" _ _ (by decide)⟩

/-- C5 counterexample: a backslash in the place label survives sanitization
and appears in the produced group key, so the claim that all nine characters
(including the backslash) are removed is false on the code. -/
theorem groupKey_keeps_backslash :
    PhotoSorter.makeGroupName (fun _ => none) PhotoSorter.defaultRules
        ⟨none, some "a\\b", none⟩ = "unknownMon_a\\b" ∧
      '\\' ∈ ("unknownMon_a\\b" : String).data :=
  ⟨by decide, by decide⟩

/-- C5 amended: sanitization replaces the eight characters of the compiled
class `< > : " / | ? *` (the backslash is not in the class) and collapses
whitespace runs: the output contains no character of the class and no two
adjacent spaces. -/
theorem sanitize_removes_invalid_chars (s : String) :
    ((PhotoSorter.sanitize s).data.all (fun c => !PhotoSorter.invalidChar c)) = true ∧
      List.Chain' (fun a b => ¬(a = ' ' ∧ b = ' ')) (PhotoSorter.sanitize s).data := by
  by_cases hs : s = ""
  · subst hs
    refine ⟨by decide, ?_⟩
    have hdata : (PhotoSorter.sanitize "").data = ['U', 'n', 'k', 'n', 'o', 'w', 'n'] := by
      decide
    rw [hdata]
    simp only [List.chain'_cons, List.chain'_singleton, and_true]
    decide
  · unfold PhotoSorter.sanitize
    rw [if_neg hs]
    constructor
    · rw [List.all_eq_true]
      intro c hc
      have h1 := PhotoSorter.mem_pyStrip _ _ hc
      rcases PhotoSorter.mem_collapseWs _ _ h1 with h2 | h3
      · subst h2; decide
      · rcases List.mem_map.mp h3 with ⟨a, -, ha2⟩
        by_cases hi : PhotoSorter.invalidChar a = true
        · rw [if_pos hi] at ha2
          rw [← ha2]
          decide
        · rw [if_neg hi] at ha2
          rw [← ha2]
          simp [hi]
    · exact PhotoSorter.chain'_pyStrip (fun a b h => fun hab => h ⟨hab.2, hab.1⟩) _
        (PhotoSorter.chain'_collapseWs _)

/-- C9 counterexample: a whitespace-only place label produces a group key
with an empty place component, not the token "Unknown". -/
theorem whitespace_place_not_unknown :
    PhotoSorter.makeGroupName (fun _ => none) PhotoSorter.defaultRules
        ⟨none, some " ", none⟩ = "unknownMon_" ∧
      ("unknownMon_" : String) ≠ "unknownMon_Unknown" :=
  ⟨by decide, by decide⟩

/-- C9 amended: a place that is None (or empty) before sanitization becomes
"NoLocation"; a whitespace-only place sanitizes to the empty string and the
key's place component is empty.  `_sanitize`'s "Unknown" fallback fires only
on an empty input string, which `make_group_name` never passes to it. -/
theorem makeGroupName_place_fallbacks (geo : Int × Int → Option String) (n : Nat)
    (hn : 1 ≤ n) :
    PhotoSorter.makeGroupName geo PhotoSorter.defaultRules ⟨none, none, none⟩ =
        "unknownMon_NoLocation" ∧
      PhotoSorter.makeGroupName geo PhotoSorter.defaultRules
        ⟨none, some ⟨List.replicate n ' '⟩, none⟩ = "unknownMon_" := by
  constructor
  · rfl
  · have hs : PhotoSorter.sanitize ⟨List.replicate n ' '⟩ = "" :=
      PhotoSorter.sanitize_replicate_space n hn
    have hne : ((⟨List.replicate n ' '⟩ : String) == "") = false := by
      rw [beq_eq_false_iff_ne]
      intro h
      have hd : List.replicate n ' ' = ([] : List Char) := congrArg String.data h
      rw [List.replicate_eq_nil_iff] at hd
      omega
    simp only [PhotoSorter.makeGroupName, PhotoSorter.truthyOpt, hne, Bool.not_false,
      if_true, Bool.false_eq_true, if_false, hs]
    decide

/-- Witness for C9's amended statement at `n = 1`. -/
theorem makeGroupName_place_fallbacks_witness :
    1 ≤ 1 ∧
      (PhotoSorter.makeGroupName (fun _ => none) PhotoSorter.defaultRules
          ⟨none, none, none⟩ = "unknownMon_NoLocation" ∧
        PhotoSorter.makeGroupName (fun _ => none) PhotoSorter.defaultRules
          ⟨none, some ⟨List.replicate 1 ' '⟩, none⟩ = "unknownMon_") :=
  ⟨Nat.le_refl 1, makeGroupName_place_fallbacks (fun _ => none) 1 (Nat.le_refl 1)⟩

namespace PhotoSorter

theorem underscore_name_ne (stem r suf : String) :
    stem ++ "_" ++ r ++ suf ≠ stem ++ suf := by
  intro h
  have hl := congrArg String.length h
  rw [String.length_append, String.length_append, String.length_append,
    String.length_append] at hl
  have h1 : ("_" : String).length = 1 := rfl
  rw [h1] at hl
  omega

theorem findFreeName_spec (files : List (String × FileData)) (stem suf : String) :
    ∀ fuel i n : Nat, i ≤ n → n < i + fuel →
      (∀ k, i ≤ k → k < n →
        (files.lookup (stem ++ "_" ++ toString k ++ suf)).isSome = true) →
      files.lookup (stem ++ "_" ++ toString n ++ suf) = none →
      findFreeName files stem suf i fuel = stem ++ "_" ++ toString n ++ suf := by
  intro fuel
  induction fuel with
  | zero => intro i n h1 h2 _ _; omega
  | succ f ih =>
    intro i n h1 h2 hk hn
    simp only [findFreeName]
    by_cases hin : i = n
    · subst hin
      rw [hn]
      simp
    · have hi : (files.lookup (stem ++ "_" ++ toString i ++ suf)).isSome = true :=
        hk i (Nat.le_refl i) (by omega)
      rw [if_pos hi]
      exact ih (i + 1) n (by omega) (by omega) (fun k hk1 hk2 => hk k (by omega) hk2) hn

theorem findFreeName_shape (files : List (String × FileData)) (stem suf : String) :
    ∀ fuel i : Nat, ∃ j : Nat,
      findFreeName files stem suf i fuel = stem ++ "_" ++ toString j ++ suf := by
  intro fuel
  induction fuel with
  | zero => intro i; exact ⟨i, rfl⟩
  | succ f ih =>
    intro i
    simp only [findFreeName]
    by_cases hc : ((files.lookup (stem ++ "_" ++ toString i ++ suf)).isSome) = true
    · rw [if_pos hc]
      exact ih (i + 1)
    · rw [if_neg hc]
      exact ⟨i, rfl⟩

theorem lookup_append_self {β : Type} (l : List (String × β)) (k : String) (v : β)
    (h : l.lookup k = none) : (l ++ [(k, v)]).lookup k = some v := by
  induction l with
  | nil => simp [List.lookup]
  | cons a t ih =>
    obtain ⟨k1, b⟩ := a
    rw [List.cons_append, List.lookup_cons]
    rw [List.lookup_cons] at h
    cases hk : (k == k1) with
    | true =>
      rw [hk] at h
      simp at h
    | false =>
      rw [hk] at h
      simp only [hk]
      exact ih h

end PhotoSorter

/-- C3 counterexample: hashing fails with an I/O error (the source is
unreadable) while a same-named same-size file exists, yet `copy_file`
returns a successful renamed copy — the error is silently dropped, no
`CopyError` propagates. -/
theorem copyFile_swallows_hash_error :
    PhotoSorter.copyFile (fun c => c) ⟨"a", ".jpg", [3, 4], false⟩
        ⟨true, [("a.jpg", ⟨[1, 2], false⟩)]⟩ false true =
      .ok (⟨true, [("a.jpg", ⟨[1, 2], false⟩), ("a_1.jpg", ⟨[3, 4], true⟩)]⟩,
        "a_1.jpg", "renamed") := by
  decide

/-- C3 amended: an I/O error while hashing is caught by the bare
`except Exception: pass` and control falls through to the renamed-copy
path, so the caller sees a successful renamed copy; only a failure of the
copy step itself escapes, as the raw exception (no CopyError type exists
in the code). -/
theorem copyFile_hash_error_falls_through (md5 : List Nat → List Nat)
    (src : PhotoSorter.SrcFile) (fs : PhotoSorter.DestDir) (d : PhotoSorter.FileData)
    (hlook : fs.files.lookup src.name = some d) (hread : src.readable = false) :
    (∃ fs2 : PhotoSorter.DestDir,
        PhotoSorter.copyFile md5 src fs false true =
          .ok (fs2,
            PhotoSorter.findFreeName fs.files src.stem src.suffix 1 (fs.files.length + 1),
            "renamed")) ∧
      PhotoSorter.copyFile md5 src fs false false = .error src.name := by
  have hskip : ¬(d.content.length = src.content.length ∧ src.readable = true ∧
      d.readable = true ∧ md5 src.content = md5 d.content) := by
    rintro ⟨-, h2, -, -⟩
    rw [hread] at h2
    exact Bool.false_ne_true h2
  obtain ⟨j, hj⟩ := PhotoSorter.findFreeName_shape fs.files src.stem src.suffix
    (fs.files.length + 1) 1
  have hne : PhotoSorter.findFreeName fs.files src.stem src.suffix 1 (fs.files.length + 1) ≠
      src.name := by
    rw [hj]
    exact PhotoSorter.underscore_name_ne src.stem (toString j) src.suffix
  constructor
  · refine ⟨⟨true, fs.files ++
      [(PhotoSorter.findFreeName fs.files src.stem src.suffix 1 (fs.files.length + 1),
        ⟨src.content, true⟩)]⟩, ?_⟩
    simp only [PhotoSorter.copyFile, hlook, if_neg hskip, Bool.false_eq_true, if_false,
      if_true, if_pos hne]
  · simp only [PhotoSorter.copyFile, hlook, if_neg hskip, Bool.false_eq_true, if_false]

/-- Witness for C3's amended statement at a concrete unreadable source. -/
theorem copyFile_hash_error_falls_through_witness :
    (([("b.png", (⟨[6], true⟩ : PhotoSorter.FileData))].lookup
        (PhotoSorter.SrcFile.name ⟨"b", ".png", [5], false⟩) =
          some (⟨[6], true⟩ : PhotoSorter.FileData)) ∧
      (PhotoSorter.SrcFile.readable ⟨"b", ".png", [5], false⟩ = false)) ∧
      ((∃ fs2 : PhotoSorter.DestDir,
          PhotoSorter.copyFile (fun c => c) ⟨"b", ".png", [5], false⟩
              ⟨true, [("b.png", ⟨[6], true⟩)]⟩ false true =
            .ok (fs2,
              PhotoSorter.findFreeName [("b.png", ⟨[6], true⟩)] "b" ".png" 1
                ([("b.png", (⟨[6], true⟩ : PhotoSorter.FileData))].length + 1),
              "renamed")) ∧
        PhotoSorter.copyFile (fun c => c) ⟨"b", ".png", [5], false⟩
            ⟨true, [("b.png", ⟨[6], true⟩)]⟩ false false =
          .error (PhotoSorter.SrcFile.name ⟨"b", ".png", [5], false⟩)) :=
  ⟨⟨by decide, by decide⟩,
    copyFile_hash_error_falls_through (fun c => c) ⟨"b", ".png", [5], false⟩
      ⟨true, [("b.png", ⟨[6], true⟩)]⟩ ⟨[6], true⟩ (by decide) (by decide)⟩

/-- C4 counterexample: with `dry_run` set and a destination directory that
does not yet exist, `copy_file` still creates the directory — the mkdir
precedes the dry-run check, so "no filesystem write whatsoever" is false. -/
theorem copyFile_dryRun_mkdirs :
    PhotoSorter.copyFile (fun c => c) ⟨"a", ".jpg", [1], true⟩ ⟨false, []⟩ true true =
        .ok (⟨true, []⟩, "a.jpg", "dryrun") ∧
      (⟨false, []⟩ : PhotoSorter.DestDir).dirExists = false ∧
      (⟨true, []⟩ : PhotoSorter.DestDir).dirExists = true := by
  exact ⟨by decide, rfl, rfl⟩

/-- C4 amended: a dry run writes no file and reports `dryrun` — or
`skipped_identical` when an identical same-named file already exists, since
that early return precedes the dry-run check — but it does create the
destination directory (and parents) first. -/
theorem copyFile_dryRun_no_file_write (md5 : List Nat → List Nat)
    (src : PhotoSorter.SrcFile) (fs : PhotoSorter.DestDir) (copyOk : Bool) :
    ∃ out : PhotoSorter.DestDir × String × String,
      PhotoSorter.copyFile md5 src fs true copyOk = .ok out ∧
      out.1.files = fs.files ∧ out.1.dirExists = true ∧
      (out.2.2 = "dryrun" ∨ out.2.2 = "skipped_identical") := by
  rcases hl : fs.files.lookup src.name with _ | d
  · refine ⟨(⟨true, fs.files⟩, src.name, "dryrun"), ?_, rfl, rfl, Or.inl rfl⟩
    simp only [PhotoSorter.copyFile, hl, if_true]
  · by_cases hskip : d.content.length = src.content.length ∧ src.readable = true ∧
        d.readable = true ∧ md5 src.content = md5 d.content
    · refine ⟨(⟨true, fs.files⟩, src.name, "skipped_identical"), ?_, rfl, rfl, Or.inr rfl⟩
      simp only [PhotoSorter.copyFile, hl, if_pos hskip]
    · refine ⟨(⟨true, fs.files⟩,
        PhotoSorter.findFreeName fs.files src.stem src.suffix 1 (fs.files.length + 1),
        "dryrun"), ?_, rfl, rfl, Or.inl rfl⟩
      simp only [PhotoSorter.copyFile, hl, if_neg hskip, if_true]

/-- C6: copying a source whose name is free in the destination and then
copying it again: the first call reports `copied`; the second finds the
identical file (same size and hash), reports `skipped_identical`, returns
the same destination path, and leaves the directory unchanged (no `_1`
duplicate). -/
theorem copyFile_idempotent (md5 : List Nat → List Nat) (src : PhotoSorter.SrcFile)
    (fs : PhotoSorter.DestDir) (hfree : fs.files.lookup src.name = none)
    (hread : src.readable = true) :
    ∃ fs1 : PhotoSorter.DestDir,
      PhotoSorter.copyFile md5 src fs false true = .ok (fs1, src.name, "copied") ∧
      PhotoSorter.copyFile md5 src fs1 false true =
        .ok (fs1, src.name, "skipped_identical") := by
  refine ⟨⟨true, fs.files ++ [(src.name, ⟨src.content, true⟩)]⟩, ?_, ?_⟩
  · simp only [PhotoSorter.copyFile, hfree, Bool.false_eq_true, if_false, if_true,
      ne_eq, not_true_eq_false]
  · have h2 : (fs.files ++ [(src.name, (⟨src.content, true⟩ : PhotoSorter.FileData))]).lookup
        src.name = some ⟨src.content, true⟩ :=
      PhotoSorter.lookup_append_self fs.files src.name _ hfree
    simp [PhotoSorter.copyFile, h2, hread]

/-- Witness for C6 at a concrete fresh destination. -/
theorem copyFile_idempotent_witness :
    ((([] : List (String × PhotoSorter.FileData)).lookup
        (PhotoSorter.SrcFile.name ⟨"a", ".jpg", [7], true⟩) = none) ∧
      PhotoSorter.SrcFile.readable ⟨"a", ".jpg", [7], true⟩ = true) ∧
      (∃ fs1 : PhotoSorter.DestDir,
        PhotoSorter.copyFile (fun c => c) ⟨"a", ".jpg", [7], true⟩ ⟨false, []⟩ false true =
            .ok (fs1, PhotoSorter.SrcFile.name ⟨"a", ".jpg", [7], true⟩, "copied") ∧
          PhotoSorter.copyFile (fun c => c) ⟨"a", ".jpg", [7], true⟩ fs1 false true =
            .ok (fs1, PhotoSorter.SrcFile.name ⟨"a", ".jpg", [7], true⟩,
              "skipped_identical")) :=
  ⟨⟨by decide, by decide⟩,
    copyFile_idempotent (fun c => c) ⟨"a", ".jpg", [7], true⟩ ⟨false, []⟩ (by decide)
      (by decide)⟩

/-- C7: when a same-named file exists with different content (different
size, or different hashes), `copy_file` picks the first free name of the
form `"{stem}_{n}{ext}"`, n = 1, 2, …, appends the file under it and
reports `renamed`. -/
theorem copyFile_renames_on_conflict (md5 : List Nat → List Nat)
    (src : PhotoSorter.SrcFile) (fs : PhotoSorter.DestDir) (d : PhotoSorter.FileData)
    (n : Nat) (hlook : fs.files.lookup src.name = some d)
    (hdiff : d.content.length ≠ src.content.length ∨ md5 src.content ≠ md5 d.content)
    (hn : 1 ≤ n) (hbound : n ≤ fs.files.length + 1)
    (htaken : ∀ k, 1 ≤ k → k < n →
      (fs.files.lookup (src.stem ++ "_" ++ toString k ++ src.suffix)).isSome = true)
    (hfree : fs.files.lookup (src.stem ++ "_" ++ toString n ++ src.suffix) = none) :
    PhotoSorter.copyFile md5 src fs false true =
      .ok (⟨true, fs.files ++
          [(src.stem ++ "_" ++ toString n ++ src.suffix, ⟨src.content, true⟩)]⟩,
        src.stem ++ "_" ++ toString n ++ src.suffix, "renamed") := by
  have hskip : ¬(d.content.length = src.content.length ∧ src.readable = true ∧
      d.readable = true ∧ md5 src.content = md5 d.content) := by
    rintro ⟨h1, -, -, h4⟩
    rcases hdiff with h | h
    · exact h h1
    · exact h h4
  have hff := PhotoSorter.findFreeName_spec fs.files src.stem src.suffix
    (fs.files.length + 1) 1 n hn (by omega) (fun k hk1 hk2 => htaken k hk1 hk2) hfree
  have hne : src.stem ++ "_" ++ toString n ++ src.suffix ≠ src.name := by
    rw [PhotoSorter.SrcFile.name]
    exact PhotoSorter.underscore_name_ne src.stem (toString n) src.suffix
  simp only [PhotoSorter.copyFile, hlook, if_neg hskip, hff, Bool.false_eq_true, if_false,
    if_true, if_pos hne]

/-- Witness for C7: two different files both named a.jpg yield a.jpg then
a_1.jpg (the spec's concrete collision example). -/
theorem copyFile_renames_on_conflict_witness :
    (([("a.jpg", (⟨[1], true⟩ : PhotoSorter.FileData))].lookup
        (PhotoSorter.SrcFile.name ⟨"a", ".jpg", [2, 3], true⟩) =
          some (⟨[1], true⟩ : PhotoSorter.FileData)) ∧
      ((⟨[1], true⟩ : PhotoSorter.FileData).content.length ≠
          (PhotoSorter.SrcFile.content ⟨"a", ".jpg", [2, 3], true⟩).length ∨
        (fun c => c) (PhotoSorter.SrcFile.content ⟨"a", ".jpg", [2, 3], true⟩) ≠
          (fun c => c) (⟨[1], true⟩ : PhotoSorter.FileData).content) ∧
      ([("a.jpg", (⟨[1], true⟩ : PhotoSorter.FileData))].lookup
        ("a" ++ "_" ++ toString 1 ++ ".jpg") = none)) ∧
      PhotoSorter.copyFile (fun c => c) ⟨"a", ".jpg", [2, 3], true⟩
          ⟨true, [("a.jpg", ⟨[1], true⟩)]⟩ false true =
        .ok (⟨true, [("a.jpg", ⟨[1], true⟩),
            ("a" ++ "_" ++ toString 1 ++ ".jpg", ⟨[2, 3], true⟩)]⟩,
          "a" ++ "_" ++ toString 1 ++ ".jpg", "renamed") :=
  ⟨⟨by decide, by decide, by decide⟩,
    copyFile_renames_on_conflict (fun c => c) ⟨"a", ".jpg", [2, 3], true⟩
      ⟨true, [("a.jpg", ⟨[1], true⟩)]⟩ ⟨[1], true⟩ 1 (by decide) (by decide) (by decide)
      (by decide) (fun k hk1 hk2 => absurd (Nat.lt_of_le_of_lt hk1 hk2) (by decide))
      (by decide)⟩

namespace PhotoSorter

theorem lookup_setdefaultAppend (g p : String) :
    ∀ (acc : List (String × List String)) (q : String),
      (setdefaultAppend acc g p).lookup q =
        if q = g then some (((acc.lookup g).getD []) ++ [p]) else acc.lookup q := by
  intro acc
  induction acc with
  | nil =>
    intro q
    by_cases h : q = g
    · subst h
      simp [setdefaultAppend, List.lookup]
    · simp [setdefaultAppend, List.lookup, h, beq_eq_false_iff_ne.mpr h]
  | cons a t ih =>
    intro q
    obtain ⟨k, l⟩ := a
    by_cases hk : k = g
    · subst hk
      simp only [setdefaultAppend, if_pos rfl]
      by_cases h : q = k
      · subst h
        simp [List.lookup_cons]
      · simp [List.lookup_cons, h, beq_eq_false_iff_ne.mpr h]
    · simp only [setdefaultAppend, if_neg hk]
      by_cases h : q = k
      · subst h
        simp [List.lookup_cons, hk]
      · simp [List.lookup_cons, beq_eq_false_iff_ne.mpr h, h, ih,
          beq_eq_false_iff_ne.mpr (Ne.symm hk)]

theorem keys_setdefaultAppend (g p : String) :
    ∀ acc : List (String × List String),
      (setdefaultAppend acc g p).map Prod.fst =
        if g ∈ acc.map Prod.fst then acc.map Prod.fst else acc.map Prod.fst ++ [g] := by
  intro acc
  induction acc with
  | nil => simp [setdefaultAppend]
  | cons a t ih =>
    obtain ⟨k, l⟩ := a
    by_cases hk : k = g
    · subst hk
      simp [setdefaultAppend]
    · simp only [setdefaultAppend, if_neg hk, List.map_cons, ih]
      by_cases h : g ∈ t.map Prod.fst
      · simp [h, (Ne.symm hk : g ≠ k)]
      · simp [h, (Ne.symm hk : g ≠ k)]

theorem sum_setdefaultAppend (g p : String) :
    ∀ acc : List (String × List String),
      ((setdefaultAppend acc g p).map (fun e => e.2.length)).sum =
        ((acc.map (fun e => e.2.length)).sum) + 1 := by
  intro acc
  induction acc with
  | nil => simp [setdefaultAppend]
  | cons a t ih =>
    obtain ⟨k, l⟩ := a
    by_cases hk : k = g
    · subst hk
      simp [setdefaultAppend]
      omega
    · simp [setdefaultAppend, hk, ih]
      omega

theorem nodup_setdefaultAppend (g p : String) (acc : List (String × List String))
    (h : (acc.map Prod.fst).Nodup) : ((setdefaultAppend acc g p).map Prod.fst).Nodup := by
  rw [keys_setdefaultAppend]
  by_cases hm : g ∈ acc.map Prod.fst
  · rw [if_pos hm]
    exact h
  · rw [if_neg hm, List.nodup_append]
    refine ⟨h, List.nodup_singleton g, ?_⟩
    intro a ha hb
    rw [List.mem_singleton] at hb
    subst hb
    exact hm ha

theorem buildGroups_lookup (assign : String → String) :
    ∀ (rest : List String) (acc : List (String × List String)) (g : String),
      (((buildGroups assign rest acc).lookup g).getD []) =
        ((acc.lookup g).getD []) ++ rest.filter (fun q => assign q == g) := by
  intro rest
  induction rest with
  | nil =>
    intro acc g
    simp [buildGroups]
  | cons p t ih =>
    intro acc g
    rw [buildGroups, ih, lookup_setdefaultAppend]
    by_cases h : g = assign p
    · rw [if_pos h, List.filter_cons,
        if_pos (by simp only [beq_iff_eq]; exact h.symm)]
      rw [← h]
      simp
    · rw [if_neg h, List.filter_cons,
        if_neg (by simp only [beq_iff_eq]; exact fun hh => h hh.symm)]

theorem buildGroups_sum (assign : String → String) :
    ∀ (rest : List String) (acc : List (String × List String)),
      ((buildGroups assign rest acc).map (fun e => e.2.length)).sum =
        ((acc.map (fun e => e.2.length)).sum) + rest.length := by
  intro rest
  induction rest with
  | nil =>
    intro acc
    simp [buildGroups]
  | cons p t ih =>
    intro acc
    rw [buildGroups, ih, sum_setdefaultAppend]
    simp only [List.length_cons]
    omega

theorem buildGroups_nodup (assign : String → String) :
    ∀ (rest : List String) (acc : List (String × List String)),
      (acc.map Prod.fst).Nodup → ((buildGroups assign rest acc).map Prod.fst).Nodup := by
  intro rest
  induction rest with
  | nil =>
    intro acc h
    simpa [buildGroups] using h
  | cons p t ih =>
    intro acc h
    rw [buildGroups]
    exact ih _ (nodup_setdefaultAppend _ _ _ h)

end PhotoSorter

/-- C10: on a cache-miss scan, the groups built by `build_mapping` partition
the flat file list: the group names are distinct, each group's list is
exactly the scan-ordered sublist of the files assigned to it (so every file
lands in exactly one group, in scan order), and the group sizes sum to the
number of scanned files. -/
theorem buildGroups_partition (extract : String → Except String PhotoSorter.Meta)
    (grp : PhotoSorter.Meta → Except String String) (scanList : List String) :
    ((PhotoSorter.buildGroups (PhotoSorter.assignGroup extract grp) scanList []).map
        Prod.fst).Nodup ∧
      (∀ g : String,
        (((PhotoSorter.buildGroups (PhotoSorter.assignGroup extract grp) scanList
            []).lookup g).getD []) =
          scanList.filter (fun q => PhotoSorter.assignGroup extract grp q == g)) ∧
      ((PhotoSorter.buildGroups (PhotoSorter.assignGroup extract grp) scanList []).map
          (fun e => e.2.length)).sum = scanList.length := by
  refine ⟨PhotoSorter.buildGroups_nodup _ scanList [] (by simp), ?_, ?_⟩
  · intro g
    rw [PhotoSorter.buildGroups_lookup]
    simp [List.lookup]
  · rw [PhotoSorter.buildGroups_sum]
    simp

namespace PhotoSorter

theorem fileSteps_spec (cr : String → String → Except String String)
    (dupErr : String → Option String) (g p : String) (j : JobRec) :
    (fileSteps cr dupErr g p j).2.state = j.state ∧
    (fileSteps cr dupErr g p j).2.total = j.total ∧
    (fileSteps cr dupErr g p j).2.processed = j.processed + 1 ∧
    (fileSteps cr dupErr g p j).2.copied =
      j.copied + (if !isErr (cr g p) && !isDup (cr g p) then 1 else 0) ∧
    (fileSteps cr dupErr g p j).2.failed = j.failed + (if isErr (cr g p) then 1 else 0) ∧
    (fileSteps cr dupErr g p j).2.duplicates =
      j.duplicates + (if isDup (cr g p) then 1 else 0) ∧
    (fileSteps cr dupErr g p j).2.errors.length =
      j.errors.length + (if isErr (cr g p) then 1 else 0) +
        (if isDup (cr g p) && (dupErr p).isSome then 1 else 0) ∧
    (∀ x ∈ (fileSteps cr dupErr g p j).1, x.state = j.state) ∧
    List.Chain' (fun a b => a.processed ≤ b.processed)
      (j :: (fileSteps cr dupErr g p j).1) ∧
    (fileSteps cr dupErr g p j).1.getLast? = some (fileSteps cr dupErr g p j).2 := by
  rcases hcr : cr g p with e | st
  · have hsteps : fileSteps cr dupErr g p j =
        ([⟨j.state, j.total, j.processed + 1, j.copied, j.failed, j.duplicates,
            j.errors, some p, some g⟩,
          ⟨j.state, j.total, j.processed + 1, j.copied, j.failed, j.duplicates,
            j.errors ++ ["Copy failed for " ++ p ++ ": " ++ e], some p, some g⟩,
          ⟨j.state, j.total, j.processed + 1, j.copied, j.failed + 1, j.duplicates,
            j.errors ++ ["Copy failed for " ++ p ++ ": " ++ e], some p, some g⟩],
         ⟨j.state, j.total, j.processed + 1, j.copied, j.failed + 1, j.duplicates,
            j.errors ++ ["Copy failed for " ++ p ++ ": " ++ e], some p, some g⟩) := by
      simp [fileSteps, hcr]
    rw [hsteps]
    refine ⟨rfl, rfl, rfl, by simp [isErr, isDup], by simp [isErr],
      by simp [isDup], by simp [isErr, isDup, List.length_append], ?_, ?_, rfl⟩
    · intro x hx
      simp only [List.mem_cons, List.not_mem_nil, or_false] at hx
      rcases hx with h | h | h <;> subst h <;> rfl
    · simp only [List.chain'_cons, List.chain'_singleton, and_true]
      refine ⟨by omega, by omega, by omega⟩
  · by_cases hd : st = "skipped_identical"
    · subst hd
      rcases hde : dupErr p with _ | m
      · have hsteps : fileSteps cr dupErr g p j =
            ([⟨j.state, j.total, j.processed + 1, j.copied, j.failed, j.duplicates,
            j.errors, some p, some g⟩,
              ⟨j.state, j.total, j.processed + 1, j.copied, j.failed, j.duplicates + 1,
            j.errors, some p, some g⟩],
             ⟨j.state, j.total, j.processed + 1, j.copied, j.failed, j.duplicates + 1,
            j.errors, some p, some g⟩) := by
          simp [fileSteps, hcr, hde]
        rw [hsteps]
        refine ⟨rfl, rfl, rfl, by simp [isErr, isDup], by simp [isErr],
          by simp [isDup], by simp [isErr, isDup, hde], ?_, ?_, rfl⟩
        · intro x hx
          simp only [List.mem_cons, List.not_mem_nil, or_false] at hx
          rcases hx with h | h <;> subst h <;> rfl
        · simp only [List.chain'_cons, List.chain'_singleton, and_true]
          refine ⟨by omega, by omega⟩
      · have hsteps : fileSteps cr dupErr g p j =
            ([⟨j.state, j.total, j.processed + 1, j.copied, j.failed, j.duplicates,
            j.errors, some p, some g⟩,
              ⟨j.state, j.total, j.processed + 1, j.copied, j.failed, j.duplicates + 1,
            j.errors, some p, some g⟩,
              ⟨j.state, j.total, j.processed + 1, j.copied, j.failed, j.duplicates + 1,
            j.errors ++ ["Duplicate copy failed: " ++ m], some p, some g⟩],
             ⟨j.state, j.total, j.processed + 1, j.copied, j.failed, j.duplicates + 1,
            j.errors ++ ["Duplicate copy failed: " ++ m], some p, some g⟩) := by
          simp [fileSteps, hcr, hde]
        rw [hsteps]
        refine ⟨rfl, rfl, rfl, by simp [isErr, isDup], by simp [isErr],
          by simp [isDup], by simp [isErr, isDup, hde, List.length_append], ?_, ?_, rfl⟩
        · intro x hx
          simp only [List.mem_cons, List.not_mem_nil, or_false] at hx
          rcases hx with h | h | h <;> subst h <;> rfl
        · simp only [List.chain'_cons, List.chain'_singleton, and_true]
          refine ⟨by omega, by omega, by omega⟩
    · have hsteps : fileSteps cr dupErr g p j =
          ([⟨j.state, j.total, j.processed + 1, j.copied, j.failed, j.duplicates,
            j.errors, some p, some g⟩,
            ⟨j.state, j.total, j.processed + 1, j.copied + 1, j.failed, j.duplicates,
            j.errors, some p, some g⟩],
           ⟨j.state, j.total, j.processed + 1, j.copied + 1, j.failed, j.duplicates,
            j.errors, some p, some g⟩) := by
        simp [fileSteps, hcr, beq_eq_false_iff_ne.mpr hd]
      rw [hsteps]
      refine ⟨rfl, rfl, rfl, by simp [isErr, isDup, beq_eq_false_iff_ne.mpr hd],
        by simp [isErr], by simp [isDup, beq_eq_false_iff_ne.mpr hd],
        by simp [isErr, isDup, beq_eq_false_iff_ne.mpr hd], ?_, ?_, rfl⟩
      · intro x hx
        simp only [List.mem_cons, List.not_mem_nil, or_false] at hx
        rcases hx with h | h <;> subst h <;> rfl
      · simp only [List.chain'_cons, List.chain'_singleton, and_true]
        refine ⟨by omega, by omega⟩

end PhotoSorter

namespace PhotoSorter

theorem runPairs_spec (cr : String → String → Except String String)
    (dupErr : String → Option String) :
    ∀ (pairs : List (String × String)) (j : JobRec),
      (∀ x ∈ runPairs cr dupErr pairs j, x.state = j.state) ∧
      (runPairsFinal cr dupErr pairs j).state = j.state ∧
      (runPairsFinal cr dupErr pairs j).total = j.total ∧
      (runPairsFinal cr dupErr pairs j).processed = j.processed + pairs.length ∧
      (runPairsFinal cr dupErr pairs j).copied =
        j.copied + pairs.countP (fun gp => !isErr (cr gp.1 gp.2) && !isDup (cr gp.1 gp.2)) ∧
      (runPairsFinal cr dupErr pairs j).failed =
        j.failed + pairs.countP (fun gp => isErr (cr gp.1 gp.2)) ∧
      (runPairsFinal cr dupErr pairs j).duplicates =
        j.duplicates + pairs.countP (fun gp => isDup (cr gp.1 gp.2)) ∧
      (runPairsFinal cr dupErr pairs j).errors.length =
        j.errors.length + pairs.countP (fun gp => isErr (cr gp.1 gp.2)) +
          pairs.countP (fun gp => isDup (cr gp.1 gp.2) && (dupErr gp.2).isSome) ∧
      List.Chain' (fun a b => a.processed ≤ b.processed)
        (j :: runPairs cr dupErr pairs j) ∧
      (j :: runPairs cr dupErr pairs j).getLast? = some (runPairsFinal cr dupErr pairs j) := by
  intro pairs
  induction pairs with
  | nil =>
    intro j
    refine ⟨by simp [runPairs], rfl, rfl, by simp [runPairsFinal],
      by simp [runPairsFinal], by simp [runPairsFinal], by simp [runPairsFinal],
      by simp [runPairsFinal], by simp [runPairs], by simp [runPairs, runPairsFinal]⟩
  | cons gp rest ih =>
    intro j
    obtain ⟨g, p⟩ := gp
    obtain ⟨fsState, fsTotal, fsProc, fsCop, fsFail, fsDup, fsErrs, fsAll, fsChain, fsLast⟩ :=
      fileSteps_spec cr dupErr g p j
    obtain ⟨ihAll, ihState, ihTotal, ihProc, ihCop, ihFail, ihDup, ihErrs, ihChain, ihLast⟩ :=
      ih ((fileSteps cr dupErr g p j).2)
    have hrp : runPairs cr dupErr ((g, p) :: rest) j =
        (fileSteps cr dupErr g p j).1 ++
          runPairs cr dupErr rest ((fileSteps cr dupErr g p j).2) := rfl
    have hrf : runPairsFinal cr dupErr ((g, p) :: rest) j =
        runPairsFinal cr dupErr rest ((fileSteps cr dupErr g p j).2) := rfl
    have hlast : (j :: (fileSteps cr dupErr g p j).1).getLast? =
        some ((fileSteps cr dupErr g p j).2) := by
      rcases hs : (fileSteps cr dupErr g p j).1 with _ | ⟨a, l⟩
      · rw [hs] at fsLast
        simp at fsLast
      · rw [hs] at fsLast
        rw [List.getLast?_cons_cons]
        exact fsLast
    refine ⟨?_, ?_, ?_, ?_, ?_, ?_, ?_, ?_, ?_, ?_⟩
    · intro x hx
      rw [hrp, List.mem_append] at hx
      rcases hx with h | h
      · exact fsAll x h
      · rw [ihAll x h, fsState]
    · rw [hrf, ihState, fsState]
    · rw [hrf, ihTotal, fsTotal]
    · rw [hrf, ihProc, fsProc, List.length_cons]
      omega
    · rw [hrf, ihCop, fsCop]
      simp only [List.countP_cons]
      omega
    · rw [hrf, ihFail, fsFail]
      simp only [List.countP_cons]
      omega
    · rw [hrf, ihDup, fsDup]
      simp only [List.countP_cons]
      omega
    · rw [hrf, ihErrs, fsErrs]
      simp only [List.countP_cons]
      omega
    · rw [hrp, ← List.cons_append, List.chain'_append]
      refine ⟨fsChain, ihChain.tail, ?_⟩
      intro x hx y hy
      rw [hlast, Option.mem_def, Option.some.injEq] at hx
      rw [← hx]
      exact (List.chain'_cons'.mp ihChain).1 y hy
    · rw [hrp, hrf, ← List.cons_append]
      rcases hb : runPairs cr dupErr rest ((fileSteps cr dupErr g p j).2) with _ | ⟨b, l⟩
      · rw [List.append_nil]
        rw [hb] at ihLast
        have : (fileSteps cr dupErr g p j).2 =
            runPairsFinal cr dupErr rest ((fileSteps cr dupErr g p j).2) := by
          simpa using ihLast
        rw [← this]
        exact hlast
      · rw [List.getLast?_append_cons]
        rw [hb, List.getLast?_cons_cons] at ihLast
        exact ihLast

end PhotoSorter

namespace PhotoSorter

theorem countP_outcomes (cr : String → String → Except String String) :
    ∀ pairs : List (String × String),
      pairs.countP (fun gp => !isErr (cr gp.1 gp.2) && !isDup (cr gp.1 gp.2)) +
        pairs.countP (fun gp => isDup (cr gp.1 gp.2)) +
        pairs.countP (fun gp => isErr (cr gp.1 gp.2)) = pairs.length := by
  intro pairs
  induction pairs with
  | nil => simp
  | cons a t ih =>
    simp only [List.countP_cons, List.length_cons]
    rcases hcr : cr a.1 a.2 with e | st
    · have he : isErr (Except.error e : Except String String) = true := rfl
      have hd2 : isDup (Except.error e : Except String String) = false := rfl
      simp [he, hd2]
      omega
    · have he : isErr (Except.ok st : Except String String) = false := rfl
      by_cases hd : st = "skipped_identical"
      · have hd2 : isDup (Except.ok st : Except String String) = true := by
          simp [isDup, hd]
        simp [he, hd2]
        omega
      · have hd2 : isDup (Except.ok st : Except String String) = false := by
          simp [isDup, beq_eq_false_iff_ne.mpr hd]
        simp [he, hd2]
        omega

theorem map_keys_lookup :
    ∀ mapping : List (String × List String), (mapping.map Prod.fst).Nodup →
      (mapping.map Prod.fst).map (fun g => ((mapping.lookup g).getD []).length) =
        mapping.map (fun e => e.2.length) := by
  intro mapping
  induction mapping with
  | nil =>
    intro _
    simp
  | cons a t ih =>
    intro hnodup
    obtain ⟨k, v⟩ := a
    rw [List.map_cons, List.nodup_cons] at hnodup
    obtain ⟨hk, ht⟩ := hnodup
    simp only [List.map_cons]
    congr 1
    · simp [List.lookup_cons]
    · have hmc : (t.map Prod.fst).map
          (fun g => ((((k, v) :: t).lookup g).getD []).length) =
            (t.map Prod.fst).map (fun g => ((t.lookup g).getD []).length) := by
        apply List.map_congr_left
        intro g hg
        have hgk : g ≠ k := fun h => hk (h ▸ hg)
        rw [List.lookup_cons]
        simp [beq_eq_false_iff_ne.mpr hgk]
      rw [hmc, ih ht]

theorem jobPairs_length_all (mapping : List (String × List String))
    (hnodup : (mapping.map Prod.fst).Nodup) :
    (jobPairs mapping none).length = (mapping.map (fun e => e.2.length)).sum := by
  simp only [jobPairs]
  rw [List.length_flatMap]
  have hfl : (List.length ∘ fun g => ((mapping.lookup g).getD []).map (fun p => (g, p))) =
      fun g => ((mapping.lookup g).getD []).length := by
    funext g
    simp
  rw [hfl, map_keys_lookup mapping hnodup]

end PhotoSorter

/-- C2 amended: a copy job whose mapping build succeeds transitions
pending → running → done with `processed` monotonically non-decreasing;
every file of the selected groups is attempted (a per-file copy failure
increments `failed`, appends an error message, and processing continues),
and on completion `copied + duplicates + failed == processed`, where
`processed` equals the number of files in the selected groups — this is
`total` (the flat list length) when no group restriction is given and the
mapping's group sizes sum to the file count, but a job restricted to one
group finishes `done` with `processed` equal to that group's size, which
can be less than `total`. -/
theorem copyRunner_lifecycle (cr : String → String → Except String String)
    (dupErr : String → Option String) (mapping : List (String × List String))
    (files : List String) (gn : Option String)
    (hnodup : (mapping.map Prod.fst).Nodup)
    (hpart : (mapping.map (fun e => e.2.length)).sum = files.length) :
    ∃ fin : PhotoSorter.JobRec,
      (PhotoSorter.runTrace cr dupErr mapping files gn).getLast? = some fin ∧
      (PhotoSorter.runTrace cr dupErr mapping files gn).head? =
        some PhotoSorter.pendingRec ∧
      List.Chain' (fun a b => a.processed ≤ b.processed)
        (PhotoSorter.runTrace cr dupErr mapping files gn) ∧
      (∀ x ∈ ((PhotoSorter.runTrace cr dupErr mapping files gn).drop 1).dropLast,
        x.state = "running") ∧
      fin.state = "done" ∧ fin.currentFile = none ∧ fin.currentGroup = none ∧
      fin.total = files.length ∧
      fin.processed = (PhotoSorter.jobPairs mapping gn).length ∧
      fin.copied + fin.duplicates + fin.failed = fin.processed ∧
      fin.failed = (PhotoSorter.jobPairs mapping gn).countP
        (fun gp => PhotoSorter.isErr (cr gp.1 gp.2)) ∧
      fin.errors.length = (PhotoSorter.jobPairs mapping gn).countP
          (fun gp => PhotoSorter.isErr (cr gp.1 gp.2)) +
        (PhotoSorter.jobPairs mapping gn).countP
          (fun gp => PhotoSorter.isDup (cr gp.1 gp.2) && (dupErr gp.2).isSome) ∧
      (gn = none → fin.processed = files.length) := by
  obtain ⟨sAll, sState, sTotal, sProc, sCop, sFail, sDup, sErrs, sChain, sLast⟩ :=
    PhotoSorter.runPairs_spec cr dupErr (PhotoSorter.jobPairs mapping gn)
      (PhotoSorter.runningRec files.length)
  have hco := PhotoSorter.countP_outcomes cr (PhotoSorter.jobPairs mapping gn)
  refine ⟨PhotoSorter.doneRec (PhotoSorter.runPairsFinal cr dupErr
    (PhotoSorter.jobPairs mapping gn) (PhotoSorter.runningRec files.length)),
    ?_, ?_, ?_, ?_, rfl, rfl, rfl, ?_, ?_, ?_, ?_, ?_, ?_⟩
  · rw [PhotoSorter.runTrace, List.getLast?_concat]
  · rw [PhotoSorter.runTrace]
    rfl
  · rw [PhotoSorter.runTrace, List.chain'_append]
    refine ⟨List.chain'_cons.mpr ⟨Nat.le_refl 0, sChain⟩, List.chain'_singleton _, ?_⟩
    intro x hx y hy
    rw [List.getLast?_cons_cons, sLast, Option.mem_def, Option.some.injEq] at hx
    rw [List.head?_cons, Option.mem_def, Option.some.injEq] at hy
    rw [← hx, ← hy]
    exact Nat.le_refl _
  · rw [PhotoSorter.runTrace, List.cons_append]
    intro x hx
    rw [List.drop_succ_cons, List.drop_zero, List.dropLast_concat] at hx
    rcases List.mem_cons.mp hx with h | h
    · rw [h]
      rfl
    · rw [sAll x h]
      rfl
  · exact sTotal
  · rw [show (PhotoSorter.doneRec (PhotoSorter.runPairsFinal cr dupErr
      (PhotoSorter.jobPairs mapping gn) (PhotoSorter.runningRec files.length))).processed =
        (PhotoSorter.runPairsFinal cr dupErr (PhotoSorter.jobPairs mapping gn)
          (PhotoSorter.runningRec files.length)).processed from rfl, sProc]
    simp [PhotoSorter.runningRec, PhotoSorter.pendingRec]
  · rw [show (PhotoSorter.doneRec (PhotoSorter.runPairsFinal cr dupErr
      (PhotoSorter.jobPairs mapping gn) (PhotoSorter.runningRec files.length))).copied =
        (PhotoSorter.runPairsFinal cr dupErr (PhotoSorter.jobPairs mapping gn)
          (PhotoSorter.runningRec files.length)).copied from rfl, sCop]
    rw [show (PhotoSorter.doneRec (PhotoSorter.runPairsFinal cr dupErr
      (PhotoSorter.jobPairs mapping gn) (PhotoSorter.runningRec files.length))).duplicates =
        (PhotoSorter.runPairsFinal cr dupErr (PhotoSorter.jobPairs mapping gn)
          (PhotoSorter.runningRec files.length)).duplicates from rfl, sDup]
    rw [show (PhotoSorter.doneRec (PhotoSorter.runPairsFinal cr dupErr
      (PhotoSorter.jobPairs mapping gn) (PhotoSorter.runningRec files.length))).failed =
        (PhotoSorter.runPairsFinal cr dupErr (PhotoSorter.jobPairs mapping gn)
          (PhotoSorter.runningRec files.length)).failed from rfl, sFail]
    rw [show (PhotoSorter.doneRec (PhotoSorter.runPairsFinal cr dupErr
      (PhotoSorter.jobPairs mapping gn) (PhotoSorter.runningRec files.length))).processed =
        (PhotoSorter.runPairsFinal cr dupErr (PhotoSorter.jobPairs mapping gn)
          (PhotoSorter.runningRec files.length)).processed from rfl, sProc]
    simp only [PhotoSorter.runningRec, PhotoSorter.pendingRec]
    omega
  · rw [show (PhotoSorter.doneRec (PhotoSorter.runPairsFinal cr dupErr
      (PhotoSorter.jobPairs mapping gn) (PhotoSorter.runningRec files.length))).failed =
        (PhotoSorter.runPairsFinal cr dupErr (PhotoSorter.jobPairs mapping gn)
          (PhotoSorter.runningRec files.length)).failed from rfl, sFail]
    simp [PhotoSorter.runningRec, PhotoSorter.pendingRec]
  · rw [show (PhotoSorter.doneRec (PhotoSorter.runPairsFinal cr dupErr
      (PhotoSorter.jobPairs mapping gn) (PhotoSorter.runningRec files.length))).errors =
        (PhotoSorter.runPairsFinal cr dupErr (PhotoSorter.jobPairs mapping gn)
          (PhotoSorter.runningRec files.length)).errors from rfl, sErrs]
    simp [PhotoSorter.runningRec, PhotoSorter.pendingRec]
  · intro hg
    subst hg
    rw [show (PhotoSorter.doneRec (PhotoSorter.runPairsFinal cr dupErr
      (PhotoSorter.jobPairs mapping none) (PhotoSorter.runningRec files.length))).processed =
        (PhotoSorter.runPairsFinal cr dupErr (PhotoSorter.jobPairs mapping none)
          (PhotoSorter.runningRec files.length)).processed from rfl, sProc,
      PhotoSorter.jobPairs_length_all mapping hnodup, hpart]
    simp [PhotoSorter.runningRec, PhotoSorter.pendingRec]

/-- C2 counterexample: a submitted copy job restricted to one group ("A")
of a two-file mapping reaches `done` with `processed = 1` while
`total = 2`, so the claimed final `processed == total` (and
`copied + duplicates + failed == total`) is false for such a job. -/
theorem copyRunner_groupFilter_counterexample :
    (PhotoSorter.runTrace (fun _ _ => .ok "copied") (fun _ => none)
        [("A", ["f1"]), ("B", ["f2"])] ["f1", "f2"] (some "A")).getLast? =
      some ⟨"done", 2, 1, 1, 0, 0, [], none, none⟩ ∧
      (1 : Nat) ≠ 2 :=
  ⟨by decide, by decide⟩

/-- Witness for C2's amended statement: the spec's 10-file group with one
failing file, no group restriction. -/
theorem copyRunner_lifecycle_witness :
    ((PhotoSorter.exMapping.map Prod.fst).Nodup ∧
      (PhotoSorter.exMapping.map (fun e => e.2.length)).sum =
        PhotoSorter.exFiles.length) ∧
    (∃ fin : PhotoSorter.JobRec,
      (PhotoSorter.runTrace PhotoSorter.exCr (fun _ => none) PhotoSorter.exMapping
          PhotoSorter.exFiles none).getLast? = some fin ∧
      (PhotoSorter.runTrace PhotoSorter.exCr (fun _ => none) PhotoSorter.exMapping
          PhotoSorter.exFiles none).head? = some PhotoSorter.pendingRec ∧
      List.Chain' (fun a b => a.processed ≤ b.processed)
        (PhotoSorter.runTrace PhotoSorter.exCr (fun _ => none) PhotoSorter.exMapping
          PhotoSorter.exFiles none) ∧
      (∀ x ∈ ((PhotoSorter.runTrace PhotoSorter.exCr (fun _ => none) PhotoSorter.exMapping
          PhotoSorter.exFiles none).drop 1).dropLast, x.state = "running") ∧
      fin.state = "done" ∧ fin.currentFile = none ∧ fin.currentGroup = none ∧
      fin.total = PhotoSorter.exFiles.length ∧
      fin.processed = (PhotoSorter.jobPairs PhotoSorter.exMapping none).length ∧
      fin.copied + fin.duplicates + fin.failed = fin.processed ∧
      fin.failed = (PhotoSorter.jobPairs PhotoSorter.exMapping none).countP
        (fun gp => PhotoSorter.isErr (PhotoSorter.exCr gp.1 gp.2)) ∧
      fin.errors.length = (PhotoSorter.jobPairs PhotoSorter.exMapping none).countP
          (fun gp => PhotoSorter.isErr (PhotoSorter.exCr gp.1 gp.2)) +
        (PhotoSorter.jobPairs PhotoSorter.exMapping none).countP
          (fun gp => PhotoSorter.isDup (PhotoSorter.exCr gp.1 gp.2) &&
            ((fun _ => (none : Option String)) gp.2).isSome) ∧
      ((none : Option String) = none → fin.processed = PhotoSorter.exFiles.length)) :=
  ⟨⟨by decide, by decide⟩,
    copyRunner_lifecycle PhotoSorter.exCr (fun _ => none) PhotoSorter.exMapping
      PhotoSorter.exFiles none (by decide) (by decide)⟩
